import Mathlib

/-!
Verification of the radar ingestion/assembly pipeline of
`src/util/factory.js` (build-your-own-radar).

The only JavaScript source available is `src/util/factory.js`; the small
model classes (`models/ring.js`, `models/quadrant.js`, `models/blip.js`,
`models/radar.js`), `util/inputSanitizer.js`, `util/exceptionMessages.js`,
`util/sheet.js` and `util/googleAuth.js` are referenced by the factory but
are not part of the given sources, so they are modelled from the
specification where marked.

JavaScript strings are modelled as Lean `String` (a list of characters);
the JS string operations used by the factory (`endsWith`, `substring`,
`toLowerCase`, `trim`, `replace(/\+/g,' ')`, `decodeURIComponent`) are
embedded explicitly below.  Case mapping is modelled on the ASCII range,
which is the range the pipeline's ring/quadrant/novelty tokens live in.
`decodeURIComponent` is modelled for single-byte (ASCII) percent escapes;
multi-byte UTF-8 escapes and malformed escapes (which throw `URIError` in
JS) are a decode failure (`none`).
-/

namespace Byor

/-- ASCII lower-casing of one character, as done by JS `toLowerCase`. -/
def lowerChar (c : Char) : Char :=
  if 'A' ≤ c ∧ c ≤ 'Z' then Char.ofNat (c.toNat + 32) else c

/-- ASCII upper-casing of one character, as done by JS `toUpperCase`. -/
def upperChar (c : Char) : Char :=
  if 'a' ≤ c ∧ c ≤ 'z' then Char.ofNat (c.toNat - 32) else c

/-- JS `String.prototype.toLowerCase` (ASCII range). -/
def jsToLowerCase (s : String) : String :=
  String.mk (s.data.map lowerChar)

/-- Upper-case the first character of a character list (lodash `upperFirst`). -/
def upperFirst : List Char → List Char
  | [] => []
  | c :: cs => upperChar c :: cs

/-- lodash `_.capitalize`: lower-case the whole string, then upper-case the
first character ("converts the first character of string to upper case and
the remaining to lower case").  Used at `factory.js:47`. -/
def lodashCapitalize (s : String) : String :=
  String.mk (upperFirst (s.data.map lowerChar))

/-- JS whitespace test for `trim` (ASCII whitespace). -/
def jsWhitespace (c : Char) : Bool :=
  c == ' ' || c == '\t' || c == '\n' || c == '\r'

/-- JS `String.prototype.trim`. -/
def jsTrim (s : String) : String :=
  String.mk (((s.data.dropWhile jsWhitespace).reverse.dropWhile jsWhitespace).reverse)

/-- JS `String.prototype.endsWith` (case-sensitive). -/
def jsEndsWith (s suffix : String) : Bool :=
  suffix.data.isSuffixOf s.data

/-- The title preprocessing at `factory.js:27-29`: if the title ends with
`".csv"`, drop its last four characters (`title.substring(0, title.length - 4)`),
otherwise keep it unchanged.  The result becomes `document.title`. -/
def stripCsvSuffix (title : String) : String :=
  if jsEndsWith title ".csv" then String.mk (title.data.take (title.data.length - 4))
  else title

/-- A Ring of the radar.  Modelled from the spec: `models/ring.js` is not
under `src/`; §3 gives `Ring = {name, order}` with both fields set at
construction (`new Ring(ringName, i)` at `factory.js:41`). -/
structure Ring where
  name : String
  order : Nat
  deriving DecidableEq

/-- A radar entry ("blip").  Modelled from the spec: `models/blip.js` is not
under `src/`; §3 gives `Entry = {name, ring, isNew, topic, description}`,
all set at construction (`new Blip(...)` at `factory.js:49`).  The ring
reference is an `Option` because in JS `ringMap[blip.ring]` is `undefined`
when the name is absent from the map. -/
structure Blip where
  name : String
  ring : Option Ring
  isNew : Bool
  topic : String
  description : String
  deriving DecidableEq

/-- A Quadrant.  Modelled from the spec: `models/quadrant.js` is not under
`src/`; §3 gives `Quadrant = {name, entries}` with the entries an ordered
sequence. -/
structure Quadrant where
  name : String
  blips : List Blip
  deriving DecidableEq

/-- `Quadrant.add` appends one entry.  Modelled from the spec §4.3:
"construct an Entry ... and append it to the Quadrant's entry sequence"
(`quadrants[blip.quadrant].add(...)` at `factory.js:49`). -/
def Quadrant.add (q : Quadrant) (b : Blip) : Quadrant :=
  { q with blips := q.blips ++ [b] }

/-- The root aggregate.  Modelled from the spec: `models/radar.js` is not
under `src/`; §3 gives `Radar = {quadrants, currentSheetName,
alternativeSheetNames}`, filled by `addQuadrant`, `setCurrentSheet` and
`addAlternative` at `factory.js:52-65`. -/
structure Radar where
  quadrants : List Quadrant
  currentSheetName : String
  alternativeSheetNames : List String
  deriving DecidableEq

/-- The sanitized row record produced by the input sanitizer and consumed by
`plotRadar` (`blip.name`, `blip.ring`, `blip.quadrant`, `blip.isNew`,
`blip.topic`, `blip.description`, all strings). -/
structure BlipRecord where
  name : String
  ring : String
  quadrant : String
  isNew : String
  topic : String
  description : String
  deriving DecidableEq

/-- The closed error taxonomy of the pipeline (§7): `MalformedDataError` and
`SheetNotFoundError` are the exception classes required by `factory.js`;
`httpError` stands for a transport/authorization failure object carrying an
HTTP `status`; `uriError` stands for the `URIError` thrown by
`decodeURIComponent` on malformed input. -/
inductive PipelineException where
  | malformedData (message : String)
  | sheetNotFound (message : String)
  | httpError (status : Nat)
  | uriError
  deriving DecidableEq

/-- The `status` property read by the error callback at `factory.js:135`
(`undefined`, i.e. `none`, unless the error object carries an HTTP status). -/
def exceptionStatus : PipelineException → Option Nat
  | .httpError s => some s
  | _ => none

/-- Modelled from the spec: `util/exceptionMessages.js` is not under `src/`.
The spec calls `ExceptionMessages.TOO_MANY_RINGS` the "too many rings"
message. -/
def TOO_MANY_RINGS : String := "too many rings"

/-- Modelled from the spec: `util/inputSanitizer.js` is not under `src/`.
§4.2: transform one keyed row into the record
`{name, ring, quadrant, isNewRaw, topic, description}`, trimming whitespace
from string fields and defaulting a missing value to the empty string. -/
def sanitize (row : List (String × String)) : BlipRecord :=
  { name := jsTrim ((row.lookup "name").getD "")
  , ring := jsTrim ((row.lookup "ring").getD "")
  , quadrant := jsTrim ((row.lookup "quadrant").getD "")
  , isNew := jsTrim ((row.lookup "isNew").getD "")
  , topic := jsTrim ((row.lookup "topic").getD "")
  , description := jsTrim ((row.lookup "description").getD "") }

/-- Zip an ordered header row with an ordered value row by position,
reconstructing the keyed row of the protected path (spec §4.2, shape 2). -/
def zipHeader : List String → List String → List (String × String)
  | h :: hs, v :: vs => (h, v) :: zipHeader hs vs
  | _, _ => []

/-- Modelled from the spec: `InputSanitizer.sanitizeForProtectedSheet`
(§4.2 shape 2): "given an ordered header row and a data row expressed as an
ordered value sequence of equal length, zip by position to reconstruct
column→value, then apply the same normalization."  Used at `factory.js:126`. -/
def sanitizeForProtectedSheet (blip : List String) (header : List String) : BlipRecord :=
  sanitize (zipHeader header blip)

/-- lodash `_.uniqBy(l, key)` with an explicit accumulator of already-seen
keys: keep the first element carrying each key, in input order. -/
def uniqByAux (key : BlipRecord → String) (seen : List String) :
    List BlipRecord → List BlipRecord
  | [] => []
  | b :: bs =>
      if key b ∈ seen then uniqByAux key seen bs
      else b :: uniqByAux key (key b :: seen) bs

/-- lodash `_.uniqBy(l, key)`. -/
def uniqBy (key : BlipRecord → String) (l : List BlipRecord) : List BlipRecord :=
  uniqByAux key [] l

/-- `factory.js:33`: `_.map(_.uniqBy(blips, 'ring'), 'ring')` — the distinct
ring names in first-appearance order. -/
def ringNames (blips : List BlipRecord) : List String :=
  (uniqBy (fun b => b.ring) blips).map (fun b => b.ring)

/-- `factory.js:35`. -/
def maxRings : Nat := 4

/-- The ring-construction loop at `factory.js:37-42`: walk the distinct ring
names with their index `i`; when `i` reaches `maxRings` throw
`MalformedDataError(TOO_MANY_RINGS)`, otherwise store `Ring(ringName, i)`
under `ringName`. -/
def makeRings : List String → Nat → Except PipelineException (List (String × Ring))
  | [], _ => .ok []
  | name :: rest, i =>
      if i = maxRings then .error (.malformedData TOO_MANY_RINGS)
      else
        match makeRings rest (i + 1) with
        | .ok tail => .ok ((name, ⟨name, i⟩) :: tail)
        | .error e => .error e

/-- The association list `makeRings` produces when it does not fail:
each name paired with a `Ring` carrying its index. -/
def ringPairs : List String → Nat → List (String × Ring)
  | [], _ => []
  | name :: rest, i => (name, ⟨name, i⟩) :: ringPairs rest (i + 1)

/-- Entry construction at `factory.js:49`: `new Blip(blip.name,
ringMap[blip.ring], blip.isNew.toLowerCase() === 'true', blip.topic,
blip.description)`. -/
def mkBlip (ringMap : List (String × Ring)) (b : BlipRecord) : Blip :=
  { name := b.name
  , ring := ringMap.lookup b.ring
  , isNew := jsToLowerCase b.isNew == "true"
  , topic := b.topic
  , description := b.description }

/-- Append the entry for `b` to the quadrant stored under key `b.quadrant`
(the mutation `quadrants[blip.quadrant].add(...)` at `factory.js:49`). -/
def updateQuadrant (rm : List (String × Ring)) (b : BlipRecord) :
    List (String × Quadrant) → List (String × Quadrant)
  | [] => []
  | (k, q) :: rest =>
      if k = b.quadrant then (k, q.add (mkBlip rm b)) :: rest
      else (k, q) :: updateQuadrant rm b rest

/-- One iteration of the loop at `factory.js:45-50`: lazily create the
quadrant for `b.quadrant` (named with the capitalized quadrant value), then
append `b`'s entry to it.  The JS object `quadrants` is modelled as an
association list in insertion order. -/
def addBlip (rm : List (String × Ring)) (qs : List (String × Quadrant))
    (b : BlipRecord) : List (String × Quadrant) :=
  let qs' :=
    if (qs.lookup b.quadrant).isSome then qs
    else qs ++ [(b.quadrant, ⟨lodashCapitalize b.quadrant, []⟩)]
  updateQuadrant rm b qs'

/-- The full loop at `factory.js:45-50`. -/
def buildQuadrants (rm : List (String × Ring)) (qs : List (String × Quadrant)) :
    List BlipRecord → List (String × Quadrant)
  | [] => qs
  | b :: bs => buildQuadrants rm (addBlip rm qs b) bs

/-- The entries a quadrant keyed `k` ends up with: the entries of the rows
whose quadrant value is `k`, in input order. -/
def entriesFor (rm : List (String × Ring)) (k : String) (blips : List BlipRecord) :
    List Blip :=
  (blips.filter (fun b => b.quadrant == k)).map (mkBlip rm)

/-- The distinct quadrant values of the rows in first-appearance order,
relative to an accumulator of already-seen keys. -/
def firstSeenQuadrants (seen : List String) : List BlipRecord → List String
  | [] => []
  | b :: bs =>
      if b.quadrant ∈ seen then firstSeenQuadrants seen bs
      else b.quadrant :: firstSeenQuadrants (b.quadrant :: seen) bs

/-- `plotRadar` (`factory.js:26-70`), up to the hand-off to the external
renderer: strip a `".csv"` suffix from the title (the result becomes
`document.title`), build the ring map (failing with `MalformedDataError`
on a fifth distinct ring), group the entries into quadrants, and assemble
the `Radar` with the current and alternative sheet names.  The renderer
call (`new GraphingRadar(size, radar).init().plot()`) is out of scope; the
function returns the document title and the finished radar, or the thrown
exception. -/
def plotRadar (title : String) (blips : List BlipRecord)
    (currentRadarName : String) (alternativeRadars : List String) :
    Except PipelineException (String × Radar) :=
  let docTitle := stripCsvSuffix title
  match makeRings (ringNames blips) 0 with
  | .error e => .error e
  | .ok ringMap =>
      .ok (docTitle,
        { quadrants := (buildQuadrants ringMap [] blips).map Prod.snd
        , currentSheetName := currentRadarName
        , alternativeSheetNames := alternativeRadars })

/-- The character class `[^\\/]` of the regexes at `factory.js:184,190`:
a path separator is a forward slash or a backslash. -/
def sepChar (c : Char) : Bool :=
  c == '/' || c == '\\'

/-- `url.replace(/\+/g, ' ')` at `factory.js:191`. -/
def plusToSpace (s : String) : String :=
  String.mk (s.data.map (fun c => if c = '+' then ' ' else c))

/-- Value of one hex digit, or `none`. -/
def hexDigitVal (c : Char) : Option Nat :=
  if '0' ≤ c ∧ c ≤ '9' then some (c.toNat - 48)
  else if 'a' ≤ c ∧ c ≤ 'f' then some (c.toNat - 87)
  else if 'A' ≤ c ∧ c ≤ 'F' then some (c.toNat - 55)
  else none

/-- Percent-decoding of a character list: `%hh` with `hh < 0x80` decodes to
the corresponding ASCII character; any other use of `%` (malformed escape,
or a multi-byte UTF-8 escape) is a decode failure. -/
def percentDecodeChars : List Char → Option (List Char)
  | [] => some []
  | '%' :: a :: b :: rest =>
      match hexDigitVal a, hexDigitVal b with
      | some ha, some hb =>
          if 16 * ha + hb < 128 then
            (percentDecodeChars rest).map (fun cs => Char.ofNat (16 * ha + hb) :: cs)
          else none
      | _, _ => none
  | '%' :: _ => none
  | c :: rest => (percentDecodeChars rest).map (fun cs => c :: cs)

/-- JS `decodeURIComponent`, restricted to single-byte escapes; `none`
models a thrown `URIError`. -/
def decodeURIComponentJs (s : String) : Option String :=
  (percentDecodeChars s.data).map String.mk

/-- `FileName` (`factory.js:189-197`): `+`-to-space replace the URL, decode
it, and take the trailing maximal run of non-separator characters
(the regex `([^\\/]+)$`); if that run is empty the regex does not match and
the whole original URL is returned.  `none` models the `URIError` thrown by
`decodeURIComponent` on malformed input. -/
def FileName (url : String) : Option String :=
  match decodeURIComponentJs (plusToSpace url) with
  | none => none
  | some s =>
      let seg := (s.data.reverse.takeWhile (fun c => !sepChar c)).reverse
      some (if seg.isEmpty then url else String.mk seg)

/-- The displayed title of the CSV variant: `plotRadar(FileName(url), ...)`
at `factory.js:169` feeds `FileName(url)` through the `".csv"`-stripping of
`plotRadar`. -/
def csvDisplayedTitle (url : String) : Option String :=
  (FileName url).map stripCsvSuffix

/-- The displayed title of the Google-sheet variants:
`plotRadar(documentTitle + ' - ' + sheetName, ...)` at
`factory.js:107,127`, through the `".csv"`-stripping of `plotRadar`. -/
def googleDocumentTitle (googleSheetName sheetName : String) : String :=
  stripCsvSuffix (googleSheetName ++ " - " ++ sheetName)

/-- The generic part of the error page message, assigned at
`factory.js:323` before the exception is inspected. -/
def errorMessageIntro : String :=
  "Mist. Leider konnten wir Deine Google Tabellen Daten nicht finden. "

/-- `plotErrorMessage` (`factory.js:307-349`), reduced to the user-visible
message text: a `MalformedDataError` has its own message appended to the
generic text, a `SheetNotFoundError` replaces it, anything else is only
logged and the generic text is shown. -/
def plotErrorMessage : PipelineException → String
  | .malformedData m => errorMessageIntro ++ m
  | .sheetNotFound m => m
  | _ => errorMessageIntro

/-- The unauthorized error page (`factory.js:351-395`), reduced to its
user-visible message and the re-authorization action wired to the
SWITCH ACCOUNT button: `sheet.authenticate(true, ...)` at `factory.js:391`
restarts the protected path with `force = true` (a forced account
chooser). -/
structure UnauthorizedPage where
  message : String
  switchAccountForce : Bool
  deriving DecidableEq

/-- `plotUnauthorizedErrorMessage` (`factory.js:351-395`).  The denied
account identity comes from `GoogleAuth.geEmail()`; `util/googleAuth.js` is
not under `src/`, so the current user is a parameter (modelled from the
spec: the identity of the denied account). -/
def plotUnauthorizedErrorMessage (currentUser : String) : UnauthorizedPage :=
  { message :=
      "<strong>Mist!</strong> Sieht so aus als ob Du auf diese Tabelle als Benutzer <b>"
        ++ currentUser
        ++ "</b>, zugreifst, der keine Zugriffsrechte hat. Versuche bitte einen anderen Benutzerzugang."
  , switchAccountForce := true }

/-- What a build attempt leaves on the page: a plotted radar (with the
document title), a generic/classified error page, or the unauthorized page. -/
inductive BuildResult where
  | radarShown (docTitle : String) (radar : Radar)
  | errorPageShown (message : String)
  | unauthorizedShown (page : UnauthorizedPage)
  deriving DecidableEq

/-- The error callback of the protected path (`factory.js:134-139`):
status 403 shows the unauthorized page, anything else goes to
`plotErrorMessage`. -/
def protectedSheetErrorCallback (currentUser : String) (error : PipelineException) :
    BuildResult :=
  if exceptionStatus error = some 403 then
    .unauthorizedShown (plotUnauthorizedErrorMessage currentUser)
  else
    .errorPageShown (plotErrorMessage error)

/-- `createBlips` of the public Google-sheet variant (`factory.js:93-111`):
validate (the `ContentValidator` calls; `util/contentValidator.js` is not
under `src/`, so the validation outcome is a parameter), sanitize each row,
and plot.  Any exception escaping the `try` block is given unchanged to
`plotErrorMessage`. -/
def googleSheetBuildResult (validation : Except PipelineException Unit)
    (googleSheetName sheetName : String) (rows : List (List (String × String)))
    (foundSheetNames : List String) : BuildResult :=
  let attempt : Except PipelineException (String × Radar) := do
    _ ← validation
    plotRadar (googleSheetName ++ " - " ++ sheetName) (rows.map sanitize)
      sheetName foundSheetNames
  match attempt with
  | .ok (t, r) => .radarShown t r
  | .error e => .errorPageShown (plotErrorMessage e)

/-- `createBlips` of the CSV variant (`factory.js:161-173`): validate,
sanitize, derive the title with `FileName`, and plot with sheet name
`"CSV File"` and no alternative sheets.  Any exception escaping the `try`
block — including the `URIError` of `FileName` — is given unchanged to
`plotErrorMessage`. -/
def csvBuildResult (validation : Except PipelineException Unit) (url : String)
    (rows : List (List (String × String))) : BuildResult :=
  let attempt : Except PipelineException (String × Radar) := do
    _ ← validation
    match FileName url with
    | none => .error .uriError
    | some t => plotRadar t (rows.map sanitize) "CSV File" []
  match attempt with
  | .ok (t, r) => .radarShown t r
  | .error e => .errorPageShown (plotErrorMessage e)

/-- `createBlipsForProtectedSheet` (`factory.js:114-128`) combined with the
error callback of `authenticate`: the first value row is the header
(`all.shift()`), the rest are sanitized through the header+array path and
plotted.  `factory.js` itself wraps no `try` around this function; modelled
from the spec's propagation policy (§7) and `util/sheet.js` (not under
`src/`), a failure is handed unchanged to the error callback of
`processSheetResponse` (`factory.js:134-139`). -/
def protectedSheetBuildResult (currentUser : String)
    (validation : Except PipelineException Unit) (documentTitle sheetName : String)
    (values : List (List String)) (sheetNames : List String) : BuildResult :=
  let attempt : Except PipelineException (String × Radar) := do
    _ ← validation
    let header := values.headD []
    let rest := values.tail
    plotRadar (documentTitle ++ " - " ++ sheetName)
      (rest.map (fun v => sanitizeForProtectedSheet v header)) sheetName sheetNames
  match attempt with
  | .ok (t, r) => .radarShown t r
  | .error e => protectedSheetErrorCallback currentUser e

/-! ### List utilities -/

theorem takeWhile_append_of_all {p : Char → Bool} :
    ∀ {l₁ l₂ : List Char}, l₁.all p → (l₁ ++ l₂).takeWhile p = l₁ ++ l₂.takeWhile p := by
  intro l₁ l₂ h
  induction l₁ with
  | nil => simp
  | cons c cs ih =>
      simp only [List.all_cons, Bool.and_eq_true] at h
      simp [List.takeWhile_cons, h.1, ih h.2]

theorem takeWhile_cons_of_false {p : Char → Bool} {c : Char} {l : List Char}
    (h : p c = false) : (c :: l).takeWhile p = [] := by
  simp [List.takeWhile_cons, h]

theorem isSuffixOf_iff_suffix {l₁ l₂ : List Char} : l₁.isSuffixOf l₂ ↔ l₁ <:+ l₂ := by
  unfold List.isSuffixOf
  constructor
  · intro h
    have h2 := List.isPrefixOf_iff_prefix.mp h
    exact List.reverse_prefix.mp h2
  · intro h
    have h2 := List.reverse_prefix.mpr h
    exact List.isPrefixOf_iff_prefix.mpr h2

theorem sum_map_add (f g : String → Nat) :
    ∀ l : List String, (l.map (fun k => f k + g k)).sum = (l.map f).sum + (l.map g).sum := by
  intro l
  induction l with
  | nil => simp
  | cons k ks ih => simp [ih]; omega

theorem sum_indicator_of_not_mem {x : String} :
    ∀ {ks : List String}, x ∉ ks →
      (ks.map (fun k => if x = k then 1 else 0)).sum = 0 := by
  intro ks h
  induction ks with
  | nil => simp
  | cons k rest ih =>
      simp only [List.mem_cons, not_or] at h
      simp [ih h.2, h.1]

theorem sum_indicator_of_mem {x : String} :
    ∀ {ks : List String}, ks.Nodup → x ∈ ks →
      (ks.map (fun k => if x = k then 1 else 0)).sum = 1 := by
  intro ks hn hm
  induction ks with
  | nil => cases hm
  | cons k rest ih =>
      rcases List.mem_cons.mp hm with h | h
      · subst h
        have : x ∉ rest := (List.nodup_cons.mp hn).1
        simp [sum_indicator_of_not_mem this]
      · have hne : x ≠ k := by
          rintro rfl; exact (List.nodup_cons.mp hn).1 h
        have hrec := ih (List.nodup_cons.mp hn).2 h
        simp only [List.map_cons, List.sum_cons, hrec]
        simp [hne]

/-- Summing, over a duplicate-free cover `ks` of the quadrant values of `l`,
the number of rows of each quadrant value gives back the number of rows. -/
theorem sum_filter_lengths :
    ∀ (l : List BlipRecord) (ks : List String), ks.Nodup →
      (∀ b ∈ l, b.quadrant ∈ ks) →
      (ks.map (fun k => (l.filter (fun b => b.quadrant == k)).length)).sum = l.length := by
  intro l
  induction l with
  | nil => intro ks _ _; simp
  | cons b bs ih =>
      intro ks hn hc
      have hmem : b.quadrant ∈ ks := hc b (List.mem_cons_self b bs)
      have hcs : ∀ x ∈ bs, x.quadrant ∈ ks := fun x hx => hc x (List.mem_cons_of_mem b hx)
      have heach : ∀ k, ((b :: bs).filter (fun x => x.quadrant == k)).length
          = (if b.quadrant = k then 1 else 0) + (bs.filter (fun x => x.quadrant == k)).length := by
        intro k
        by_cases h : b.quadrant = k
        · simp [List.filter_cons, h, Nat.add_comm]
        · simp [List.filter_cons, h]
      calc (ks.map (fun k => ((b :: bs).filter (fun x => x.quadrant == k)).length)).sum
          = (ks.map (fun k => (if b.quadrant = k then 1 else 0)
              + (bs.filter (fun x => x.quadrant == k)).length)).sum := by
            exact congrArg List.sum (List.map_congr_left (fun k _ => heach k))
        _ = (ks.map (fun k => if b.quadrant = k then 1 else 0)).sum
              + (ks.map (fun k => (bs.filter (fun x => x.quadrant == k)).length)).sum :=
            sum_map_add _ _ ks
        _ = 1 + bs.length := by rw [sum_indicator_of_mem hn hmem, ih ks hn hcs]
        _ = (b :: bs).length := by simp [Nat.add_comm]

/-! ### Distinct ring names (`_.uniqBy`) -/

theorem mem_map_key_uniqByAux (key : BlipRecord → String) (x : String) :
    ∀ (l : List BlipRecord) (seen : List String),
      (x ∈ (uniqByAux key seen l).map key ↔ x ∉ seen ∧ x ∈ l.map key) := by
  intro l
  induction l with
  | nil => intro seen; simp [uniqByAux]
  | cons b bs ih =>
      intro seen
      by_cases h : key b ∈ seen
      · simp only [uniqByAux, if_pos h, ih seen, List.map_cons, List.mem_cons]
        constructor
        · rintro ⟨h1, h2⟩; exact ⟨h1, Or.inr h2⟩
        · rintro ⟨h1, h2 | h2⟩
          · subst h2; exact absurd h h1
          · exact ⟨h1, h2⟩
      · simp only [uniqByAux, if_neg h, List.map_cons, List.mem_cons, ih (key b :: seen)]
        constructor
        · rintro (h1 | ⟨h1, h2⟩)
          · subst h1; exact ⟨h, Or.inl rfl⟩
          · exact ⟨fun hx => h1 (Or.inr hx), Or.inr h2⟩
        · rintro ⟨h1, h2 | h2⟩
          · exact Or.inl h2
          · by_cases hx : x = key b
            · exact Or.inl hx
            · exact Or.inr ⟨fun hc => hc.elim hx h1, h2⟩

theorem nodup_map_key_uniqByAux (key : BlipRecord → String) :
    ∀ (l : List BlipRecord) (seen : List String),
      ((uniqByAux key seen l).map key).Nodup := by
  intro l
  induction l with
  | nil => intro seen; simp [uniqByAux]
  | cons b bs ih =>
      intro seen
      by_cases h : key b ∈ seen
      · simpa [uniqByAux, if_pos h] using ih seen
      · simp only [uniqByAux, if_neg h, List.map_cons, List.nodup_cons]
        refine ⟨fun hmem => ?_, ih (key b :: seen)⟩
        exact ((mem_map_key_uniqByAux key (key b) bs (key b :: seen)).mp hmem).1
          (List.mem_cons_self _ _)

theorem ringNames_nodup (blips : List BlipRecord) : (ringNames blips).Nodup :=
  nodup_map_key_uniqByAux (fun b => b.ring) blips []

theorem mem_ringNames {x : String} {blips : List BlipRecord} :
    x ∈ ringNames blips ↔ x ∈ blips.map (fun b => b.ring) := by
  unfold ringNames uniqBy
  rw [mem_map_key_uniqByAux]
  simp

/-- The length of the first-seen distinct ring-name sequence is the number
of distinct ring names of the rows. -/
theorem ringNames_length (blips : List BlipRecord) :
    (ringNames blips).length = (blips.map (fun b => b.ring)).dedup.length := by
  have h1 : (ringNames blips).toFinset = (blips.map (fun b => b.ring)).dedup.toFinset := by
    ext x
    simp [List.mem_toFinset, mem_ringNames, List.mem_dedup]
  calc (ringNames blips).length
      = (ringNames blips).toFinset.card := (List.toFinset_card_of_nodup (ringNames_nodup blips)).symm
    _ = (blips.map (fun b => b.ring)).dedup.toFinset.card := by rw [h1]
    _ = (blips.map (fun b => b.ring)).dedup.length :=
        List.toFinset_card_of_nodup (List.nodup_dedup _)

/-! ### The ring loop -/

theorem makeRings_ok : ∀ (l : List String) (i : Nat), i + l.length ≤ 4 →
    makeRings l i = .ok (ringPairs l i) := by
  intro l
  induction l with
  | nil => intro i _; rfl
  | cons n rest ih =>
      intro i h
      have hne : i ≠ maxRings := by
        simp only [List.length_cons] at h
        unfold maxRings
        omega
      simp only [makeRings, if_neg hne, ringPairs]
      rw [ih (i + 1) (by simp only [List.length_cons] at h; omega)]

theorem makeRings_error : ∀ (l : List String) (i : Nat), i ≤ 4 → 4 < i + l.length →
    makeRings l i = .error (.malformedData TOO_MANY_RINGS) := by
  intro l
  induction l with
  | nil => intro i h1 h2; simp at h2; omega
  | cons n rest ih =>
      intro i h1 h2
      by_cases h : i = maxRings
      · simp [makeRings, h]
      · have : i < 4 := by
          unfold maxRings at h
          omega
        simp only [makeRings, if_neg h]
        rw [ih (i + 1) (by omega) (by simp only [List.length_cons] at h2; omega)]

theorem lookup_ringPairs {x : String} :
    ∀ (l : List String) (i : Nat), l.Nodup → x ∈ l →
      (ringPairs l i).lookup x = some ⟨x, i + l.indexOf x⟩ := by
  intro l
  induction l with
  | nil => intro i _ h; cases h
  | cons n rest ih =>
      intro i hn hm
      rcases List.mem_cons.mp hm with h | h
      · subst h
        simp [ringPairs, List.lookup, List.indexOf_cons_self]
      · have hne : x ≠ n := by
          rintro rfl; exact (List.nodup_cons.mp hn).1 h
        have hrec := ih (i + 1) (List.nodup_cons.mp hn).2 h
        have hbeq : (x == n) = false := beq_eq_false_iff_ne.mpr hne
        have hidx : List.indexOf x (n :: rest) = List.indexOf x rest + 1 :=
          List.indexOf_cons_ne rest (fun he => hne he.symm)
        simp only [ringPairs, List.lookup]
        rw [hbeq]
        show List.lookup x (ringPairs rest (i + 1)) = some ⟨x, i + List.indexOf x (n :: rest)⟩
        rw [hrec, hidx]
        have harith : i + 1 + List.indexOf x rest = i + (List.indexOf x rest + 1) := by omega
        rw [harith]

/-! ### First-seen quadrant values -/

theorem mem_firstSeenQuadrants {x : String} :
    ∀ {l : List BlipRecord} {seen : List String},
      (x ∈ firstSeenQuadrants seen l ↔ x ∉ seen ∧ x ∈ l.map (fun b => b.quadrant)) := by
  intro l
  induction l with
  | nil => intro seen; simp [firstSeenQuadrants]
  | cons b bs ih =>
      intro seen
      by_cases h : b.quadrant ∈ seen
      · rw [firstSeenQuadrants, if_pos h, ih]
        simp only [List.map_cons, List.mem_cons]
        constructor
        · rintro ⟨h1, h2⟩; exact ⟨h1, Or.inr h2⟩
        · rintro ⟨h1, h2 | h2⟩
          · exact absurd (h2 ▸ h) h1
          · exact ⟨h1, h2⟩
      · rw [firstSeenQuadrants, if_neg h]
        simp only [List.map_cons, List.mem_cons, ih]
        constructor
        · rintro (h1 | ⟨h1, h2⟩)
          · subst h1; exact ⟨h, Or.inl rfl⟩
          · exact ⟨fun hx => h1 (Or.inr hx), Or.inr h2⟩
        · rintro ⟨h1, h2 | h2⟩
          · exact Or.inl h2
          · by_cases hx : x = b.quadrant
            · exact Or.inl hx
            · exact Or.inr ⟨fun hc => hc.elim hx h1, h2⟩

theorem nodup_firstSeenQuadrants :
    ∀ (l : List BlipRecord) (seen : List String), (firstSeenQuadrants seen l).Nodup := by
  intro l
  induction l with
  | nil => intro seen; simp [firstSeenQuadrants]
  | cons b bs ih =>
      intro seen
      by_cases h : b.quadrant ∈ seen
      · rw [firstSeenQuadrants, if_pos h]
        exact ih seen
      · rw [firstSeenQuadrants, if_neg h]
        refine List.nodup_cons.mpr ⟨fun hmem => ?_, ih (b.quadrant :: seen)⟩
        exact (mem_firstSeenQuadrants.mp hmem).1 (List.mem_cons_self _ _)

theorem firstSeenQuadrants_congr :
    ∀ {l : List BlipRecord} {s₁ s₂ : List String}, (∀ y, y ∈ s₁ ↔ y ∈ s₂) →
      firstSeenQuadrants s₁ l = firstSeenQuadrants s₂ l := by
  intro l
  induction l with
  | nil => intro s₁ s₂ _; rfl
  | cons b bs ih =>
      intro s₁ s₂ hiff
      by_cases h : b.quadrant ∈ s₁
      · rw [firstSeenQuadrants, if_pos h, firstSeenQuadrants, if_pos ((hiff _).mp h), ih hiff]
      · rw [firstSeenQuadrants, if_neg h, firstSeenQuadrants,
          if_neg (fun hc => h ((hiff _).mpr hc))]
        have : ∀ y, y ∈ b.quadrant :: s₁ ↔ y ∈ b.quadrant :: s₂ := by
          intro y
          simp only [List.mem_cons, hiff y]
        rw [ih this]

/-! ### The quadrant loop -/

theorem entriesFor_nil (rm : List (String × Ring)) (k : String) :
    entriesFor rm k [] = [] := rfl

theorem entriesFor_cons_self {b : BlipRecord} {k : String} (rm : List (String × Ring))
    (bs : List BlipRecord) (h : b.quadrant = k) :
    entriesFor rm k (b :: bs) = mkBlip rm b :: entriesFor rm k bs := by
  simp [entriesFor, List.filter_cons, h]

theorem entriesFor_cons_ne {b : BlipRecord} {k : String} (rm : List (String × Ring))
    (bs : List BlipRecord) (h : ¬b.quadrant = k) :
    entriesFor rm k (b :: bs) = entriesFor rm k bs := by
  simp [entriesFor, List.filter_cons, h]

theorem lookup_isSome_iff_mem_keys {k : String} :
    ∀ qs : List (String × Quadrant),
      ((qs.lookup k).isSome = true ↔ k ∈ qs.map Prod.fst) := by
  intro qs
  induction qs with
  | nil => simp [List.lookup]
  | cons p rest ih =>
      cases p with
      | mk k' q =>
        by_cases h : k = k'
        · subst h
          simp [List.lookup]
        · have hbeq : (k == k') = false := beq_eq_false_iff_ne.mpr h
          simp only [List.lookup, hbeq, List.map_cons, List.mem_cons, ih]
          constructor
          · exact Or.inr
          · rintro (h1 | h1)
            · exact absurd h1 h
            · exact h1

/-- Pointwise form of the first-match update: touch the pair whose key is
`b.quadrant`, leave every other pair alone. -/
def touchQuadrant (rm : List (String × Ring)) (b : BlipRecord)
    (p : String × Quadrant) : String × Quadrant :=
  if p.1 = b.quadrant then (p.1, p.2.add (mkBlip rm b)) else p

theorem fst_touchQuadrant (rm : List (String × Ring)) (b : BlipRecord)
    (p : String × Quadrant) : (touchQuadrant rm b p).1 = p.1 := by
  unfold touchQuadrant
  by_cases h : p.1 = b.quadrant <;> simp [h]

theorem map_touchQuadrant_eq_self {rm : List (String × Ring)} {b : BlipRecord}
    {qs : List (String × Quadrant)} (h : b.quadrant ∉ qs.map Prod.fst) :
    qs.map (touchQuadrant rm b) = qs := by
  have hpt : ∀ p ∈ qs, touchQuadrant rm b p = p := by
    intro p hp
    have hne : p.1 ≠ b.quadrant := by
      intro he
      exact h (he ▸ List.mem_map_of_mem Prod.fst hp)
    simp [touchQuadrant, hne]
  rw [List.map_congr_left hpt]
  simp

theorem updateQuadrant_eq_map {rm : List (String × Ring)} {b : BlipRecord} :
    ∀ {qs : List (String × Quadrant)}, (qs.map Prod.fst).Nodup →
      updateQuadrant rm b qs = qs.map (touchQuadrant rm b) := by
  intro qs h
  induction qs with
  | nil => rfl
  | cons p rest ih =>
      cases p with
      | mk k q =>
        simp only [List.map_cons, List.nodup_cons] at h
        by_cases hk : k = b.quadrant
        · subst hk
          have hrest : rest.map (touchQuadrant rm b) = rest := map_touchQuadrant_eq_self h.1
          simp [updateQuadrant, touchQuadrant, hrest]
        · simp [updateQuadrant, touchQuadrant, hk, ih h.2]

/-- Extension of an existing table entry by the entries of a row block. -/
def extendQuadrant (rm : List (String × Ring)) (blips : List BlipRecord)
    (p : String × Quadrant) : String × Quadrant :=
  (p.1, ⟨p.2.name, p.2.blips ++ entriesFor rm p.1 blips⟩)

/-- The fresh table entry created for an unseen quadrant value. -/
def newQuadrantFor (rm : List (String × Ring)) (blips : List BlipRecord)
    (k : String) : String × Quadrant :=
  (k, ⟨lodashCapitalize k, entriesFor rm k blips⟩)

theorem extendQuadrant_nil (rm : List (String × Ring)) (p : String × Quadrant) :
    extendQuadrant rm [] p = p := by
  cases p with
  | mk k q => cases q; simp [extendQuadrant, entriesFor_nil]

theorem extendQuadrant_touch {rm : List (String × Ring)} {b : BlipRecord}
    (bs : List BlipRecord) (p : String × Quadrant) :
    extendQuadrant rm bs (touchQuadrant rm b p) = extendQuadrant rm (b :: bs) p := by
  by_cases hp : p.1 = b.quadrant
  · simp only [touchQuadrant, if_pos hp, extendQuadrant, Quadrant.add]
    rw [entriesFor_cons_self rm bs hp.symm]
    simp
  · simp only [touchQuadrant, if_neg hp, extendQuadrant]
    rw [entriesFor_cons_ne rm bs (fun he => hp he.symm)]

theorem extendQuadrant_cons_of_ne {rm : List (String × Ring)} {b : BlipRecord}
    (bs : List BlipRecord) (p : String × Quadrant) (h : ¬b.quadrant = p.1) :
    extendQuadrant rm (b :: bs) p = extendQuadrant rm bs p := by
  simp only [extendQuadrant]
  rw [entriesFor_cons_ne rm bs h]

theorem newQuadrantFor_cons_of_ne {rm : List (String × Ring)} {b : BlipRecord}
    (bs : List BlipRecord) (k : String) (h : ¬b.quadrant = k) :
    newQuadrantFor rm (b :: bs) k = newQuadrantFor rm bs k := by
  simp only [newQuadrantFor]
  rw [entriesFor_cons_ne rm bs h]

/-- Full characterization of the quadrant-grouping loop of
`factory.js:45-50`: starting from a duplicate-free table `qs`, the loop
extends each existing quadrant with the entries of its rows and appends, in
first-appearance order, a new quadrant for each unseen quadrant value,
holding exactly the entries of its rows in input order. -/
theorem buildQuadrants_characterization (rm : List (String × Ring)) :
    ∀ (blips : List BlipRecord) (qs : List (String × Quadrant)),
      (qs.map Prod.fst).Nodup →
      buildQuadrants rm qs blips =
        qs.map (extendQuadrant rm blips) ++
        (firstSeenQuadrants (qs.map Prod.fst) blips).map (newQuadrantFor rm blips) := by
  intro blips
  induction blips with
  | nil =>
      intro qs _
      rw [List.map_congr_left (fun p _ => extendQuadrant_nil rm p)]
      simp [buildQuadrants, firstSeenQuadrants]
  | cons b bs ih =>
      intro qs hnd
      by_cases hmem : b.quadrant ∈ qs.map Prod.fst
      case pos =>
        have hsome : ((qs.lookup b.quadrant).isSome : Bool) = true :=
          (lookup_isSome_iff_mem_keys qs).mpr hmem
        have hadd : addBlip rm qs b = qs.map (touchQuadrant rm b) := by
          unfold addBlip
          rw [if_pos hsome, updateQuadrant_eq_map hnd]
        have hkeys : (qs.map (touchQuadrant rm b)).map Prod.fst = qs.map Prod.fst := by
          rw [List.map_map]
          exact List.map_congr_left (fun p _ => fst_touchQuadrant rm b p)
        have hnd2 : ((qs.map (touchQuadrant rm b)).map Prod.fst).Nodup := by
          rw [hkeys]; exact hnd
        have hmaps : (qs.map (touchQuadrant rm b)).map (extendQuadrant rm bs)
            = qs.map (extendQuadrant rm (b :: bs)) := by
          rw [List.map_map]
          exact List.map_congr_left (fun p _ => extendQuadrant_touch bs p)
        have hfs : firstSeenQuadrants (qs.map Prod.fst) (b :: bs)
            = firstSeenQuadrants (qs.map Prod.fst) bs := by
          simp [firstSeenQuadrants, hmem]
        have hg : (firstSeenQuadrants (qs.map Prod.fst) bs).map (newQuadrantFor rm bs)
            = (firstSeenQuadrants (qs.map Prod.fst) bs).map (newQuadrantFor rm (b :: bs)) := by
          apply List.map_congr_left
          intro k hk
          have hknot : k ∉ qs.map Prod.fst := (mem_firstSeenQuadrants.mp hk).1
          exact (newQuadrantFor_cons_of_ne bs k (fun he => hknot (he ▸ hmem))).symm
        calc buildQuadrants rm qs (b :: bs)
            = buildQuadrants rm (qs.map (touchQuadrant rm b)) bs := by
              rw [buildQuadrants, hadd]
          _ = (qs.map (touchQuadrant rm b)).map (extendQuadrant rm bs)
              ++ (firstSeenQuadrants ((qs.map (touchQuadrant rm b)).map Prod.fst) bs).map
                  (newQuadrantFor rm bs) := ih _ hnd2
          _ = qs.map (extendQuadrant rm (b :: bs))
              ++ (firstSeenQuadrants (qs.map Prod.fst) (b :: bs)).map
                  (newQuadrantFor rm (b :: bs)) := by
              rw [hkeys, hmaps, hfs, hg]
      case neg =>
        have hsome : ¬(((qs.lookup b.quadrant).isSome : Bool) = true) := by
          intro hc
          exact hmem ((lookup_isSome_iff_mem_keys qs).mp hc)
        have hkeys1 : (qs ++ [(b.quadrant, (⟨lodashCapitalize b.quadrant, []⟩ : Quadrant))]).map Prod.fst
            = qs.map Prod.fst ++ [b.quadrant] := by simp
        have hnd2 : ((qs ++ [(b.quadrant, (⟨lodashCapitalize b.quadrant, []⟩ : Quadrant))]).map Prod.fst).Nodup := by
          rw [hkeys1, List.nodup_append]
          exact ⟨hnd, List.nodup_singleton _, by simpa [List.disjoint_singleton] using hmem⟩
        have hadd : addBlip rm qs b
            = qs ++ [(b.quadrant, (⟨lodashCapitalize b.quadrant, [mkBlip rm b]⟩ : Quadrant))] := by
          unfold addBlip
          rw [if_neg hsome, updateQuadrant_eq_map hnd2, List.map_append,
            map_touchQuadrant_eq_self hmem]
          simp [touchQuadrant, Quadrant.add]
        have hnd3 : ((qs ++ [(b.quadrant, (⟨lodashCapitalize b.quadrant, [mkBlip rm b]⟩ : Quadrant))]).map Prod.fst).Nodup := by
          rw [List.map_append, List.nodup_append]
          exact ⟨hnd, by simp, by simpa [List.disjoint_singleton] using hmem⟩
        have hqsmap : qs.map (extendQuadrant rm bs) = qs.map (extendQuadrant rm (b :: bs)) := by
          apply List.map_congr_left
          intro p hp
          have hne : ¬b.quadrant = p.1 := by
            intro he
            exact hmem (he ▸ List.mem_map_of_mem Prod.fst hp)
          exact (extendQuadrant_cons_of_ne bs p hne).symm
        have hpair : extendQuadrant rm bs (b.quadrant, (⟨lodashCapitalize b.quadrant, [mkBlip rm b]⟩ : Quadrant))
            = newQuadrantFor rm (b :: bs) b.quadrant := by
          simp only [extendQuadrant, newQuadrantFor]
          rw [entriesFor_cons_self rm bs rfl]
          simp
        have hfs2 : firstSeenQuadrants (qs.map Prod.fst ++ [b.quadrant]) bs
            = firstSeenQuadrants (b.quadrant :: qs.map Prod.fst) bs := by
          apply firstSeenQuadrants_congr
          intro y
          simp [List.mem_append, or_comm]
        have hg2 : (firstSeenQuadrants (b.quadrant :: qs.map Prod.fst) bs).map (newQuadrantFor rm bs)
            = (firstSeenQuadrants (b.quadrant :: qs.map Prod.fst) bs).map (newQuadrantFor rm (b :: bs)) := by
          apply List.map_congr_left
          intro k hk
          have hknot : k ∉ b.quadrant :: qs.map Prod.fst := (mem_firstSeenQuadrants.mp hk).1
          have hne : ¬b.quadrant = k := by
            intro he
            exact hknot (he ▸ List.mem_cons_self _ _)
          exact (newQuadrantFor_cons_of_ne bs k hne).symm
        have hstep : firstSeenQuadrants (qs.map Prod.fst) (b :: bs)
            = b.quadrant :: firstSeenQuadrants (b.quadrant :: qs.map Prod.fst) bs := by
          simp [firstSeenQuadrants, hmem]
        calc buildQuadrants rm qs (b :: bs)
            = buildQuadrants rm
                (qs ++ [(b.quadrant, (⟨lodashCapitalize b.quadrant, [mkBlip rm b]⟩ : Quadrant))]) bs := by
              rw [buildQuadrants, hadd]
          _ = (qs ++ [(b.quadrant, (⟨lodashCapitalize b.quadrant, [mkBlip rm b]⟩ : Quadrant))]).map
                (extendQuadrant rm bs)
              ++ (firstSeenQuadrants ((qs ++ [(b.quadrant, (⟨lodashCapitalize b.quadrant, [mkBlip rm b]⟩ : Quadrant))]).map Prod.fst) bs).map
                  (newQuadrantFor rm bs) := ih _ hnd3
          _ = qs.map (extendQuadrant rm (b :: bs))
              ++ (firstSeenQuadrants (qs.map Prod.fst) (b :: bs)).map
                  (newQuadrantFor rm (b :: bs)) := by
              rw [List.map_append, hqsmap]
              simp only [List.map_cons, List.map_nil]
              rw [hpair, hstep]
              simp only [List.map_cons]
              rw [List.append_assoc]
              simp only [List.singleton_append]
              rw [List.map_append]
              simp only [List.map_cons, List.map_nil]
              rw [hfs2, hg2]

/-! ### `plotRadar` outcomes -/

/-- The ring association list an at-most-4-ring assembly works with. -/
def assembledRingMap (blips : List BlipRecord) : List (String × Ring) :=
  ringPairs (ringNames blips) 0

/-- Success shape of `plotRadar` for at most 4 distinct ring names. -/
theorem plotRadar_ok (title : String) (blips : List BlipRecord)
    (currentRadarName : String) (alternativeRadars : List String)
    (h : (ringNames blips).length ≤ 4) :
    plotRadar title blips currentRadarName alternativeRadars =
      .ok (stripCsvSuffix title,
        { quadrants := (firstSeenQuadrants [] blips).map
            (fun k => ⟨lodashCapitalize k, entriesFor (assembledRingMap blips) k blips⟩)
        , currentSheetName := currentRadarName
        , alternativeSheetNames := alternativeRadars }) := by
  unfold plotRadar
  rw [makeRings_ok (ringNames blips) 0 (by omega)]
  have hchar := buildQuadrants_characterization (assembledRingMap blips) blips []
    (by simp)
  simp only [List.map_nil, List.nil_append] at hchar
  unfold assembledRingMap at hchar
  show (Except.ok (stripCsvSuffix title,
      (⟨(buildQuadrants (ringPairs (ringNames blips) 0) [] blips).map Prod.snd,
        currentRadarName, alternativeRadars⟩ : Radar)) :
      Except PipelineException (String × Radar)) = _
  rw [hchar, List.map_map]
  exact congrArg (fun l => Except.ok (stripCsvSuffix title,
    (⟨l, currentRadarName, alternativeRadars⟩ : Radar)))
    (List.map_congr_left (fun k _ => rfl))

/-- Failure shape of `plotRadar` for 5 or more distinct ring names. -/
theorem plotRadar_tooManyRings (title : String) (blips : List BlipRecord)
    (currentRadarName : String) (alternativeRadars : List String)
    (h : 4 < (ringNames blips).length) :
    plotRadar title blips currentRadarName alternativeRadars =
      .error (.malformedData TOO_MANY_RINGS) := by
  unfold plotRadar
  rw [makeRings_error (ringNames blips) 0 (by omega) (by omega)]

/-- Every entry of every quadrant of a successful assembly is the
entry built from some row whose quadrant value keys that quadrant. -/
theorem mem_quadrants_of_plotRadar_ok {title : String} {blips : List BlipRecord}
    {currentRadarName : String} {alternativeRadars : List String}
    {docTitle : String} {rad : Radar}
    (hok : plotRadar title blips currentRadarName alternativeRadars = .ok (docTitle, rad))
    (hlen : (ringNames blips).length ≤ 4) :
    ∀ q ∈ rad.quadrants, ∃ k, k ∈ blips.map (fun b => b.quadrant) ∧
      q = ⟨lodashCapitalize k, entriesFor (assembledRingMap blips) k blips⟩ := by
  rw [plotRadar_ok title blips currentRadarName alternativeRadars hlen] at hok
  have hpair := Except.ok.inj hok
  rw [Prod.mk.injEq] at hpair
  obtain ⟨-, hrad⟩ := hpair
  subst hrad
  intro q hq
  simp only [List.mem_map] at hq
  obtain ⟨k, hk, hkq⟩ := hq
  exact ⟨k, (mem_firstSeenQuadrants.mp hk).2, hkq.symm⟩

/-! ### Further support lemmas -/

theorem zipHeader_eq_zip : ∀ (hs vs : List String), zipHeader hs vs = hs.zip vs := by
  intro hs
  induction hs with
  | nil => intro vs; cases vs <;> rfl
  | cons x xs ih =>
      intro vs
      cases vs with
      | nil => rfl
      | cons y ys => simp [zipHeader, ih]

theorem mem_entriesFor {rm : List (String × Ring)} {k : String}
    {blips : List BlipRecord} {e : Blip} (he : e ∈ entriesFor rm k blips) :
    ∃ b, b ∈ blips ∧ b.quadrant = k ∧ e = mkBlip rm b := by
  simp only [entriesFor, List.mem_map] at he
  obtain ⟨b, hb, hbe⟩ := he
  exact ⟨b, List.mem_of_mem_filter hb, by simpa using List.of_mem_filter hb, hbe.symm⟩

theorem data_append (a b : String) : (a ++ b).data = a.data ++ b.data :=
  String.data_append a b

theorem string_ext {a b : String} (h : a.data = b.data) : a = b := by
  cases a with
  | mk ad =>
      cases b with
      | mk bd => rw [show ad = bd from h]

theorem jsEndsWith_decomp {s suf : String} (h : jsEndsWith s suf = true) :
    ∃ r : String, s = r ++ suf := by
  unfold jsEndsWith at h
  obtain ⟨r, hr⟩ := isSuffixOf_iff_suffix.mp h
  refine ⟨String.mk r, ?_⟩
  cases s with
  | mk sdata =>
      apply congrArg String.mk
      calc sdata = r ++ suf.data := hr.symm
        _ = (String.mk r ++ suf).data := (data_append (String.mk r) suf).symm

theorem stripCsvSuffix_append (r : String) : stripCsvSuffix (r ++ ".csv") = r := by
  have hsuffix : (".csv" : String).data <:+ (r ++ ".csv").data := by
    rw [data_append]
    exact List.suffix_append r.data _
  have hend : jsEndsWith (r ++ ".csv") ".csv" = true := by
    unfold jsEndsWith
    exact isSuffixOf_iff_suffix.mpr hsuffix
  unfold stripCsvSuffix
  rw [hend]
  simp only [if_true]
  have hdata : (r ++ (".csv" : String)).data = r.data ++ (".csv" : String).data :=
    data_append r ".csv"
  rw [hdata]
  have hlen : (r.data ++ (".csv" : String).data).length - 4 = r.data.length := by
    rw [List.length_append]
    rfl
  rw [hlen, List.take_left]

theorem plotRadar_title {t : String} {blips : List BlipRecord} {c : String}
    {a : List String} {res : String × Radar}
    (hok : plotRadar t blips c a = .ok res) : res.1 = stripCsvSuffix t := by
  unfold plotRadar at hok
  cases hmr : makeRings (ringNames blips) 0 with
  | error e =>
      rw [hmr] at hok
      exact Except.noConfusion hok
  | ok rmap =>
      rw [hmr] at hok
      have := Except.ok.inj hok
      rw [← this]

/-! ### Claims -/

/-- C1: for every input row set whose number of distinct ring names is 5 or
more, `plotRadar` fails with the "too many rings" `MalformedDataError` (so no
Radar is handed to the renderer), and for every row set with at most 4
distinct ring names no such failure occurs — assembly succeeds. -/
theorem claim1_ring_limit (title : String) (blips : List BlipRecord)
    (currentRadarName : String) (alternativeRadars : List String) :
    (5 ≤ ((blips.map (fun b => b.ring)).dedup).length →
      plotRadar title blips currentRadarName alternativeRadars =
        .error (.malformedData TOO_MANY_RINGS)) ∧
    (((blips.map (fun b => b.ring)).dedup).length ≤ 4 →
      ∃ rad : Radar, plotRadar title blips currentRadarName alternativeRadars =
        .ok (stripCsvSuffix title, rad)) := by
  constructor
  · intro h
    exact plotRadar_tooManyRings _ _ _ _ (by rw [ringNames_length]; omega)
  · intro h
    exact ⟨_, plotRadar_ok _ _ _ _ (by rw [ringNames_length]; omega)⟩

/-- C1 witness: a concrete five-ring row set fails with the "too many rings"
error and a concrete one-ring row set assembles. -/
theorem claim1_ring_limit_witness :
    plotRadar "t" [⟨"A", "r1", "q", "true", "", "d"⟩, ⟨"B", "r2", "q", "true", "", "d"⟩,
        ⟨"C", "r3", "q", "true", "", "d"⟩, ⟨"D", "r4", "q", "true", "", "d"⟩,
        ⟨"E", "r5", "q", "true", "", "d"⟩] "c" [] =
      .error (.malformedData TOO_MANY_RINGS) ∧
    ∃ rad : Radar, plotRadar "t" [⟨"A", "r1", "q", "true", "", "d"⟩] "c" [] =
      .ok (stripCsvSuffix "t", rad) :=
  ⟨(claim1_ring_limit "t" _ "c" []).1 (by decide),
   (claim1_ring_limit "t" _ "c" []).2 (by decide)⟩

/-- C2 counterexample: for the rows with ring values "a", "a", "b", the Ring
named "b" gets order 1 in the assembled radar, while the 0-based index of
the first row whose ring cell carries "b" is 2 — so order is not the index
of that first row. -/
theorem claim2_counterexample :
    (plotRadar "t" [⟨"A", "a", "q", "true", "", "d"⟩, ⟨"B", "a", "q", "true", "", "d"⟩,
        ⟨"C", "b", "q", "true", "", "d"⟩] "c" []).toOption.map
      (fun p => p.2.quadrants.map (fun q => q.blips.map Blip.ring)) =
      some [[some ⟨"a", 0⟩, some ⟨"a", 0⟩, some ⟨"b", 1⟩]] ∧
    List.findIdx (fun b => b.ring == "b")
      [(⟨"A", "a", "q", "true", "", "d"⟩ : BlipRecord), ⟨"B", "a", "q", "true", "", "d"⟩,
        ⟨"C", "b", "q", "true", "", "d"⟩] = 2 ∧
    (1 : Nat) ≠ 2 := by
  refine ⟨by decide, by decide, by decide⟩

/-- C2 (amended): for at most 4 distinct ring names assembly succeeds and
every entry of the radar carries the Ring of its source row, whose `order`
is the 0-based index of that ring name in the sequence of distinct ring
names taken in first-appearance order over the input rows. -/
theorem claim2_ring_order (title : String) (blips : List BlipRecord)
    (currentRadarName : String) (alternativeRadars : List String)
    (h : ((blips.map (fun b => b.ring)).dedup).length ≤ 4) :
    ∃ rad : Radar, plotRadar title blips currentRadarName alternativeRadars =
        .ok (stripCsvSuffix title, rad) ∧
      ∀ q ∈ rad.quadrants, ∀ e ∈ q.blips, ∃ b, b ∈ blips ∧
        e = mkBlip (assembledRingMap blips) b ∧
        e.ring = some ⟨b.ring, (ringNames blips).indexOf b.ring⟩ := by
  have hlen : (ringNames blips).length ≤ 4 := by rw [ringNames_length]; omega
  refine ⟨_, plotRadar_ok title blips currentRadarName alternativeRadars hlen, ?_⟩
  intro q hq e he
  have hok := plotRadar_ok title blips currentRadarName alternativeRadars hlen
  obtain ⟨k, -, rfl⟩ := mem_quadrants_of_plotRadar_ok hok hlen q hq
  obtain ⟨b, hb, -, rfl⟩ := mem_entriesFor he
  refine ⟨b, hb, rfl, ?_⟩
  have hmem : b.ring ∈ ringNames blips :=
    mem_ringNames.mpr (List.mem_map_of_mem (fun x => x.ring) hb)
  show (assembledRingMap blips).lookup b.ring = _
  unfold assembledRingMap
  rw [lookup_ringPairs (ringNames blips) 0 (ringNames_nodup blips) hmem]
  simp

/-- C2 witness: the amended ring-order statement at the concrete rows with
ring values "a", "a", "b". -/
theorem claim2_ring_order_witness :
    ∃ rad : Radar, plotRadar "t" [⟨"A", "a", "q", "true", "", "d"⟩,
        ⟨"B", "a", "q", "true", "", "d"⟩, ⟨"C", "b", "q", "true", "", "d"⟩] "c" [] =
        .ok (stripCsvSuffix "t", rad) ∧
      ∀ q ∈ rad.quadrants, ∀ e ∈ q.blips, ∃ b,
        b ∈ [(⟨"A", "a", "q", "true", "", "d"⟩ : BlipRecord), ⟨"B", "a", "q", "true", "", "d"⟩,
          ⟨"C", "b", "q", "true", "", "d"⟩] ∧
        e = mkBlip (assembledRingMap [(⟨"A", "a", "q", "true", "", "d"⟩ : BlipRecord),
          ⟨"B", "a", "q", "true", "", "d"⟩, ⟨"C", "b", "q", "true", "", "d"⟩]) b ∧
        e.ring = some ⟨b.ring, (ringNames [(⟨"A", "a", "q", "true", "", "d"⟩ : BlipRecord),
          ⟨"B", "a", "q", "true", "", "d"⟩, ⟨"C", "b", "q", "true", "", "d"⟩]).indexOf b.ring⟩ :=
  claim2_ring_order "t" _ "c" [] (by decide)

/-- C3: for every valid input (at most 4 distinct ring names) of N rows the
assembled Radar holds exactly N entries; there is a duplicate-free list of
quadrant keys covering exactly the quadrant values of the rows, and each
quadrant of the radar holds, in input order, exactly the entries of the rows
carrying its key — so each row yields one entry in exactly one quadrant. -/
theorem claim3_row_roundtrip (title : String) (blips : List BlipRecord)
    (currentRadarName : String) (alternativeRadars : List String)
    (h : ((blips.map (fun b => b.ring)).dedup).length ≤ 4) :
    ∃ rad : Radar, plotRadar title blips currentRadarName alternativeRadars =
        .ok (stripCsvSuffix title, rad) ∧
      ∃ ks : List String, ks.Nodup ∧
        (∀ b ∈ blips, b.quadrant ∈ ks) ∧
        (∀ k ∈ ks, k ∈ blips.map (fun b => b.quadrant)) ∧
        rad.quadrants = ks.map
          (fun k => ⟨lodashCapitalize k, entriesFor (assembledRingMap blips) k blips⟩) ∧
        (rad.quadrants.map (fun q => q.blips.length)).sum = blips.length := by
  have hlen : (ringNames blips).length ≤ 4 := by rw [ringNames_length]; omega
  refine ⟨_, plotRadar_ok title blips currentRadarName alternativeRadars hlen,
    firstSeenQuadrants [] blips, nodup_firstSeenQuadrants blips [], ?_, ?_, rfl, ?_⟩
  · intro b hb
    exact mem_firstSeenQuadrants.mpr
      ⟨List.not_mem_nil _, List.mem_map_of_mem (fun x => x.quadrant) hb⟩
  · intro k hk
    exact (mem_firstSeenQuadrants.mp hk).2
  · rw [List.map_map]
    have hpt : ∀ k ∈ firstSeenQuadrants [] blips,
        ((fun q : Quadrant => q.blips.length) ∘
          (fun k => (⟨lodashCapitalize k, entriesFor (assembledRingMap blips) k blips⟩ : Quadrant))) k
        = (blips.filter (fun b => b.quadrant == k)).length := by
      intro k _
      simp [entriesFor]
    rw [List.map_congr_left hpt]
    exact sum_filter_lengths blips (firstSeenQuadrants [] blips)
      (nodup_firstSeenQuadrants blips [])
      (fun b hb => mem_firstSeenQuadrants.mpr
        ⟨List.not_mem_nil _, List.mem_map_of_mem (fun x => x.quadrant) hb⟩)

/-- C3 witness: the round-trip statement at two concrete rows spread over
two quadrant values. -/
theorem claim3_row_roundtrip_witness :
    ∃ rad : Radar, plotRadar "t" [⟨"A", "r", "tools", "true", "", "d"⟩,
        ⟨"B", "r", "platforms", "false", "", "d"⟩] "c" [] =
        .ok (stripCsvSuffix "t", rad) ∧
      ∃ ks : List String, ks.Nodup ∧
        (∀ b ∈ [(⟨"A", "r", "tools", "true", "", "d"⟩ : BlipRecord),
          ⟨"B", "r", "platforms", "false", "", "d"⟩], b.quadrant ∈ ks) ∧
        (∀ k ∈ ks, k ∈ [(⟨"A", "r", "tools", "true", "", "d"⟩ : BlipRecord),
          ⟨"B", "r", "platforms", "false", "", "d"⟩].map (fun b => b.quadrant)) ∧
        rad.quadrants = ks.map
          (fun k => ⟨lodashCapitalize k,
            entriesFor (assembledRingMap [(⟨"A", "r", "tools", "true", "", "d"⟩ : BlipRecord),
              ⟨"B", "r", "platforms", "false", "", "d"⟩]) k
              [(⟨"A", "r", "tools", "true", "", "d"⟩ : BlipRecord),
                ⟨"B", "r", "platforms", "false", "", "d"⟩]⟩) ∧
        (rad.quadrants.map (fun q => q.blips.length)).sum =
          ([(⟨"A", "r", "tools", "true", "", "d"⟩ : BlipRecord),
            ⟨"B", "r", "platforms", "false", "", "d"⟩] : List BlipRecord).length :=
  claim3_row_roundtrip "t" _ "c" [] (by decide)

/-- C4: sanitizing one logical row through the keyed-object shape and through
the header+array shape (an equal-length header row zipped by position with
the value row) yields the same Entry-construction record. -/
theorem claim4_dual_shape (header values : List String)
    (h : header.length = values.length) :
    sanitize (header.zip values) = sanitizeForProtectedSheet values header := by
  unfold sanitizeForProtectedSheet
  rw [zipHeader_eq_zip]

/-- C4 witness: both sanitization shapes agree on a concrete row. -/
theorem claim4_dual_shape_witness :
    (["name", "ring", "quadrant", "isNew", "description"] : List String).length =
      (["Tech A", "Adopt", "Tools", "TRUE", "desc"] : List String).length ∧
    sanitize (List.zip ["name", "ring", "quadrant", "isNew", "description"]
        ["Tech A", "Adopt", "Tools", "TRUE", "desc"]) =
      sanitizeForProtectedSheet ["Tech A", "Adopt", "Tools", "TRUE", "desc"]
        ["name", "ring", "quadrant", "isNew", "description"] :=
  ⟨by decide, claim4_dual_shape _ _ (by decide)⟩

/-- C5 counterexample: a row with quadrant value "myTools" is placed in a
quadrant named "Mytools" (lodash capitalize lower-cases the tail), while
capitalizing only the first letter and leaving the rest unchanged would give
"MyTools". -/
theorem claim5_counterexample :
    (plotRadar "t" [⟨"n", "r", "myTools", "true", "topic", "d"⟩] "c" []).toOption.map
      (fun p => p.2.quadrants.map Quadrant.name) = some ["Mytools"] ∧
    String.mk (upperFirst "myTools".data) = "MyTools" ∧
    ("Mytools" : String) ≠ "MyTools" := by
  refine ⟨by decide, by decide, by decide⟩

/-- C5 (amended): every Quadrant of a successful assembly is named by lodash
capitalization of the quadrant value of its rows — first letter upper-cased
and the remaining letters lower-cased — and holds exactly those rows'
entries. -/
theorem claim5_quadrant_name (title : String) (blips : List BlipRecord)
    (currentRadarName : String) (alternativeRadars : List String)
    (h : ((blips.map (fun b => b.ring)).dedup).length ≤ 4) :
    ∃ rad : Radar, plotRadar title blips currentRadarName alternativeRadars =
        .ok (stripCsvSuffix title, rad) ∧
      ∀ q ∈ rad.quadrants, ∃ b, b ∈ blips ∧
        q.name = lodashCapitalize b.quadrant ∧
        q.blips = entriesFor (assembledRingMap blips) b.quadrant blips := by
  have hlen : (ringNames blips).length ≤ 4 := by rw [ringNames_length]; omega
  refine ⟨_, plotRadar_ok title blips currentRadarName alternativeRadars hlen, ?_⟩
  intro q hq
  have hok := plotRadar_ok title blips currentRadarName alternativeRadars hlen
  obtain ⟨k, hkmem, rfl⟩ := mem_quadrants_of_plotRadar_ok hok hlen q hq
  obtain ⟨b, hb, hbq⟩ := List.mem_map.mp hkmem
  exact ⟨b, hb, by rw [hbq], by rw [hbq]⟩

/-- C5 witness: the amended quadrant-naming statement at a concrete
mixed-case quadrant value. -/
theorem claim5_quadrant_name_witness :
    ∃ rad : Radar, plotRadar "t" [⟨"n", "r", "myTools", "true", "topic", "d"⟩] "c" [] =
        .ok (stripCsvSuffix "t", rad) ∧
      ∀ q ∈ rad.quadrants, ∃ b,
        b ∈ [(⟨"n", "r", "myTools", "true", "topic", "d"⟩ : BlipRecord)] ∧
        q.name = lodashCapitalize b.quadrant ∧
        q.blips = entriesFor (assembledRingMap [(⟨"n", "r", "myTools", "true", "topic", "d"⟩ : BlipRecord)])
          b.quadrant [(⟨"n", "r", "myTools", "true", "topic", "d"⟩ : BlipRecord)] :=
  claim5_quadrant_name "t" _ "c" [] (by decide)

/-- C6: in all three source variants a `MalformedDataError` raised by
validation propagates unchanged to the error classifier and the user-visible
message is the generic prefix with the specific validation message appended;
an assembly failure ("too many rings") in the public path reaches the
classifier the same way. -/
theorem claim6_malformed_propagation (m : String) :
    (∀ (gname sname : String) (rows : List (List (String × String))) (found : List String),
      googleSheetBuildResult (.error (.malformedData m)) gname sname rows found =
        .errorPageShown (errorMessageIntro ++ m)) ∧
    (∀ (url : String) (rows : List (List (String × String))),
      csvBuildResult (.error (.malformedData m)) url rows =
        .errorPageShown (errorMessageIntro ++ m)) ∧
    (∀ (user dt sname : String) (values : List (List String)) (snames : List String),
      protectedSheetBuildResult user (.error (.malformedData m)) dt sname values snames =
        .errorPageShown (errorMessageIntro ++ m)) ∧
    (∀ (gname sname : String) (rows : List (List (String × String))) (found : List String),
      4 < (((rows.map sanitize).map (fun b => b.ring)).dedup).length →
      googleSheetBuildResult (.ok ()) gname sname rows found =
        .errorPageShown (errorMessageIntro ++ TOO_MANY_RINGS)) := by
  refine ⟨fun gname sname rows found => rfl, fun url rows => rfl,
    fun user dt sname values snames => rfl, ?_⟩
  intro gname sname rows found h
  have hplot := plotRadar_tooManyRings (gname ++ " - " ++ sname) (rows.map sanitize) sname found
    (by rw [ringNames_length]; omega)
  have hred : googleSheetBuildResult (.ok ()) gname sname rows found =
      (match plotRadar (gname ++ " - " ++ sname) (rows.map sanitize) sname found with
        | .ok (t, r) => BuildResult.radarShown t r
        | .error e => .errorPageShown (plotErrorMessage e)) := rfl
  rw [hred, hplot]
  rfl

/-- C6 witness: the propagation statement at a concrete validation message
for all three variants, and at a concrete five-ring public sheet. -/
theorem claim6_malformed_propagation_witness :
    googleSheetBuildResult (.error (.malformedData "missing column")) "Doc" "Tab" [] [] =
      .errorPageShown (errorMessageIntro ++ "missing column") ∧
    csvBuildResult (.error (.malformedData "missing column")) "u.csv" [] =
      .errorPageShown (errorMessageIntro ++ "missing column") ∧
    protectedSheetBuildResult "a@x.com" (.error (.malformedData "missing column"))
        "Doc" "Tab" [] [] =
      .errorPageShown (errorMessageIntro ++ "missing column") ∧
    googleSheetBuildResult (.ok ()) "Doc" "Tab"
      [[("name", "A"), ("ring", "r1"), ("quadrant", "q"), ("isNew", "true"), ("description", "d")],
       [("name", "B"), ("ring", "r2"), ("quadrant", "q"), ("isNew", "true"), ("description", "d")],
       [("name", "C"), ("ring", "r3"), ("quadrant", "q"), ("isNew", "true"), ("description", "d")],
       [("name", "D"), ("ring", "r4"), ("quadrant", "q"), ("isNew", "true"), ("description", "d")],
       [("name", "E"), ("ring", "r5"), ("quadrant", "q"), ("isNew", "true"), ("description", "d")]] [] =
      .errorPageShown (errorMessageIntro ++ TOO_MANY_RINGS) :=
  ⟨(claim6_malformed_propagation "missing column").1 "Doc" "Tab" [] [],
   (claim6_malformed_propagation "missing column").2.1 "u.csv" [],
   (claim6_malformed_propagation "missing column").2.2.1 "a@x.com" "Doc" "Tab" [] [],
   (claim6_malformed_propagation "missing column").2.2.2 "Doc" "Tab" _ [] (by decide)⟩

/-- C7: a protected-sheet error of status 403 reaches the unauthorized
terminal state, whose message shows the denied account identity and whose
SWITCH ACCOUNT action re-authenticates with a forced account chooser; any
error whose status is not 403 goes to the generic error page instead. -/
theorem claim7_unauthorized_403 (user : String) (e : PipelineException) :
    (exceptionStatus e = some 403 →
      ∃ pre post : String, protectedSheetErrorCallback user e =
        .unauthorizedShown ⟨pre ++ user ++ post, true⟩) ∧
    (exceptionStatus e ≠ some 403 →
      protectedSheetErrorCallback user e = .errorPageShown (plotErrorMessage e)) := by
  constructor
  · intro h
    refine ⟨"<strong>Mist!</strong> Sieht so aus als ob Du auf diese Tabelle als Benutzer <b>",
      "</b>, zugreifst, der keine Zugriffsrechte hat. Versuche bitte einen anderen Benutzerzugang.",
      ?_⟩
    unfold protectedSheetErrorCallback
    rw [if_pos h]
    rfl
  · intro h
    unfold protectedSheetErrorCallback
    rw [if_neg h]

/-- C7 witness: the 403 branch at account "a@x.com" and the generic branch
at status 500. -/
theorem claim7_unauthorized_403_witness :
    (∃ pre post : String, protectedSheetErrorCallback "a@x.com" (.httpError 403) =
      .unauthorizedShown ⟨pre ++ "a@x.com" ++ post, true⟩) ∧
    protectedSheetErrorCallback "a@x.com" (.httpError 500) =
      .errorPageShown (plotErrorMessage (.httpError 500)) :=
  ⟨(claim7_unauthorized_403 "a@x.com" (.httpError 403)).1 rfl,
   (claim7_unauthorized_403 "a@x.com" (.httpError 500)).2 (by decide)⟩

/-- The title the C8 sentence computes when read as written: extract the
final path segment of the raw URL after the last slash, then percent- and
plus-decode that segment, then strip a trailing ".csv". -/
def claimedCsvTitle (url : String) : Option String :=
  (decodeURIComponentJs (plusToSpace
    (String.mk ((url.data.reverse.takeWhile (fun c => c != '/')).reverse)))).map stripCsvSuffix

/-- C8 counterexample: for the CSV source URL "https://ex.com/a%2Fb.csv" the
code decodes the whole URL before taking the final segment and displays "b",
while the claim's extract-then-decode rule yields "a/b". -/
theorem claim8_counterexample :
    csvDisplayedTitle "https://ex.com/a%2Fb.csv" = some "b" ∧
    claimedCsvTitle "https://ex.com/a%2Fb.csv" = some "a/b" ∧
    some ("b" : String) ≠ some "a/b" := by
  refine ⟨by decide, by decide, by decide⟩

/-- C8 (amended): for every CSV source URL whose `+`-replaced form
percent-decodes to `s`, and every way of splitting the decoded `s` into a
prefix that is empty or ends with a separator (slash or backslash) and a
nonempty final run `seg` of non-separator characters, the displayed title is
`seg` with a trailing ".csv" (case-sensitive) stripped — i.e. the final path
segment is taken after decoding the whole URL, and backslash also
terminates it. -/
theorem claim8_csv_title (url s : String) (pre seg : List Char)
    (hdec : decodeURIComponentJs (plusToSpace url) = some s)
    (hsplit : s.data = pre ++ seg)
    (hseg : seg.all (fun c => !sepChar c) = true)
    (hpre : pre = [] ∨ ∃ (p : List Char) (c : Char), pre = p ++ [c] ∧ sepChar c = true)
    (hne : seg ≠ []) :
    csvDisplayedTitle url = some (stripCsvSuffix (String.mk seg)) := by
  have hallrev : seg.reverse.all (fun c => !sepChar c) = true := by
    rw [List.all_reverse]
    exact hseg
  have htake : s.data.reverse.takeWhile (fun c => !sepChar c) = seg.reverse := by
    rw [hsplit, List.reverse_append, takeWhile_append_of_all hallrev]
    rcases hpre with rfl | ⟨p, c, rfl, hc⟩
    · simp
    · rw [List.reverse_append]
      simp only [List.reverse_cons, List.reverse_nil, List.nil_append, List.singleton_append]
      rw [takeWhile_cons_of_false (by simp [hc])]
      simp
  have hemp : seg.isEmpty = false := by
    cases seg with
    | nil => exact absurd rfl hne
    | cons c cs => rfl
  have hfile : FileName url = some (String.mk seg) := by
    unfold FileName
    rw [hdec]
    show some (if ((s.data.reverse.takeWhile (fun c => !sepChar c)).reverse).isEmpty then url
        else String.mk ((s.data.reverse.takeWhile (fun c => !sepChar c)).reverse))
      = some (String.mk seg)
    rw [htake, List.reverse_reverse]
    simp [hemp]
  unfold csvDisplayedTitle
  rw [hfile]
  rfl

/-- C8 witness: the amended title rule at the spec scenario URL, displaying
"2024-radar". -/
theorem claim8_csv_title_witness :
    csvDisplayedTitle "https://example.com/sheets/2024-radar.csv" =
      some (stripCsvSuffix (String.mk ("2024-radar.csv" : String).data)) ∧
    stripCsvSuffix (String.mk ("2024-radar.csv" : String).data) = "2024-radar" :=
  ⟨claim8_csv_title "https://example.com/sheets/2024-radar.csv"
      "https://example.com/sheets/2024-radar.csv"
      ("https://example.com/sheets/" : String).data ("2024-radar.csv" : String).data
      (by decide) (by decide) (by decide)
      (Or.inr ⟨("https://example.com/sheets" : String).data, '/', by decide, by decide⟩)
      (by decide),
   by decide⟩

/-- C9: every entry of a successful assembly is built from its source row
with `isNew` true exactly when the row's raw novelty value compares equal,
case-insensitively, to the literal token "true". -/
theorem claim9_isNew_flag (title : String) (blips : List BlipRecord)
    (currentRadarName : String) (alternativeRadars : List String)
    (h : ((blips.map (fun b => b.ring)).dedup).length ≤ 4) :
    ∃ rad : Radar, plotRadar title blips currentRadarName alternativeRadars =
        .ok (stripCsvSuffix title, rad) ∧
      ∀ q ∈ rad.quadrants, ∀ e ∈ q.blips, ∃ b, b ∈ blips ∧
        e = mkBlip (assembledRingMap blips) b ∧
        (e.isNew = true ↔ jsToLowerCase b.isNew = jsToLowerCase "true") := by
  have hlen : (ringNames blips).length ≤ 4 := by rw [ringNames_length]; omega
  refine ⟨_, plotRadar_ok title blips currentRadarName alternativeRadars hlen, ?_⟩
  intro q hq e he
  have hok := plotRadar_ok title blips currentRadarName alternativeRadars hlen
  obtain ⟨k, -, rfl⟩ := mem_quadrants_of_plotRadar_ok hok hlen q hq
  obtain ⟨b, hb, -, rfl⟩ := mem_entriesFor he
  refine ⟨b, hb, rfl, ?_⟩
  have htrue : jsToLowerCase "true" = "true" := by decide
  show (jsToLowerCase b.isNew == "true") = true ↔ _
  rw [htrue, beq_iff_eq]

/-- C9 witness: the spec scenario rows — "TRUE" yields an entry with
`isNew = true`, "false" yields `isNew = false`. -/
theorem claim9_isNew_flag_witness :
    (∃ rad : Radar, plotRadar "t" [⟨"Tech A", "Adopt", "Tools", "TRUE", "", "d"⟩,
        ⟨"Tech B", "Trial", "Tools", "false", "", "d2"⟩] "c" [] =
        .ok (stripCsvSuffix "t", rad) ∧
      ∀ q ∈ rad.quadrants, ∀ e ∈ q.blips, ∃ b,
        b ∈ [(⟨"Tech A", "Adopt", "Tools", "TRUE", "", "d"⟩ : BlipRecord),
          ⟨"Tech B", "Trial", "Tools", "false", "", "d2"⟩] ∧
        e = mkBlip (assembledRingMap [(⟨"Tech A", "Adopt", "Tools", "TRUE", "", "d"⟩ : BlipRecord),
          ⟨"Tech B", "Trial", "Tools", "false", "", "d2"⟩]) b ∧
        (e.isNew = true ↔ jsToLowerCase b.isNew = jsToLowerCase "true")) ∧
    (plotRadar "t" [⟨"Tech A", "Adopt", "Tools", "TRUE", "", "d"⟩,
        ⟨"Tech B", "Trial", "Tools", "false", "", "d2"⟩] "c" []).toOption.map
      (fun p => p.2.quadrants.map (fun q => q.blips.map Blip.isNew)) =
      some [[true, false]] :=
  ⟨claim9_isNew_flag "t" _ "c" [] (by decide), by decide⟩

/-- C10: whenever the title string handed to `plotRadar` ends with ".csv"
(case-sensitively) — in any source variant — exactly the ".csv" suffix is
stripped before it becomes the displayed document title; in particular a
Google-sheet title "doc - tab.csv" is stripped too, and the document title
of any successful plot is the stripped title. -/
theorem claim10_csv_strip_all_variants (t doc tab : String)
    (h1 : jsEndsWith t ".csv" = true) (h2 : jsEndsWith tab ".csv" = true) :
    (∃ r : String, t = r ++ ".csv" ∧ stripCsvSuffix t = r) ∧
    (∃ r : String, tab = r ++ ".csv" ∧
      googleDocumentTitle doc tab = doc ++ " - " ++ r) ∧
    (∀ (blips : List BlipRecord) (c : String) (a : List String) (res : String × Radar),
      plotRadar t blips c a = .ok res → res.1 = stripCsvSuffix t) := by
  obtain ⟨r, hr⟩ := jsEndsWith_decomp h1
  obtain ⟨r2, hr2⟩ := jsEndsWith_decomp h2
  refine ⟨⟨r, hr, by rw [hr, stripCsvSuffix_append]⟩, ⟨r2, hr2, ?_⟩,
    fun blips c a res hok => plotRadar_title hok⟩
  unfold googleDocumentTitle
  rw [hr2]
  have hassoc : doc ++ " - " ++ (r2 ++ ".csv") = doc ++ " - " ++ r2 ++ ".csv" := by
    apply string_ext
    simp [data_append, List.append_assoc]
  rw [hassoc, stripCsvSuffix_append]

/-- C10 witness: a bare CSV title and a Google-sheet composite title, both
stripped of exactly their ".csv" suffix. -/
theorem claim10_csv_strip_all_variants_witness :
    (∃ r : String, ("x.csv" : String) = r ++ ".csv" ∧ stripCsvSuffix "x.csv" = r) ∧
    (∃ r : String, ("My Tab.csv" : String) = r ++ ".csv" ∧
      googleDocumentTitle "Doc" "My Tab.csv" = "Doc" ++ " - " ++ r) ∧
    stripCsvSuffix "x.csv" = "x" ∧
    googleDocumentTitle "Doc" "My Tab.csv" = "Doc - My Tab" :=
  ⟨(claim10_csv_strip_all_variants "x.csv" "Doc" "My Tab.csv" (by decide) (by decide)).1,
   (claim10_csv_strip_all_variants "x.csv" "Doc" "My Tab.csv" (by decide) (by decide)).2.1,
   by decide, by decide⟩

end Byor
